import Mathlib

/-!
Verification development for the signaling-server core of
nextcloud-spreed-signaling: the bounded LRU cache, the file watcher with
event deduplication, the federation `AsyncMessage` envelope, and the static
proxy-token store.  Each component is shallowly embedded from the Go source
(or, where only the tests of a component are in the tree, from the spec's
contract), and the spec's claims are settled as theorems about the embedding.
-/

/- ### LRU cache -/

/-- Modelled from the spec: the `LruCache` implementation itself (lru.go) is
not among the available source files — only its tests are — so the cache is
modelled from the spec's contract (§4.1): `New(bound)` with bound 0 meaning
unbounded; `Set(k,v)` inserts or updates and marks most-recent; `Get(k)`
returns the value or nothing and marks most-recent; `Remove(k)` deletes;
`RemoveOldest()` deletes the least-recent entry; `Len()` returns the count;
on a bounded cache every `Set` that would exceed the bound first removes the
oldest until size ≤ bound; recency is defined solely by insertion or
most-recent `Set`/`Get`, and `Remove` does not promote neighbors.
Entries are kept least-recent first, most-recent last. -/
structure LruCache where
  bound : Nat
  entries : List (String × Int)
deriving DecidableEq

def NewLruCache (bound : Nat) : LruCache := ⟨bound, []⟩

/-- Delete every entry carrying key `k`, preserving the order of the rest. -/
def removeEntry (l : List (String × Int)) (k : String) : List (String × Int) :=
  l.filter (fun e => e.1 != k)

def LruCache.len (c : LruCache) : Nat := c.entries.length

/-- On a bounded cache, drop the oldest entries until the size is ≤ bound;
bound 0 means unbounded, so nothing is dropped. -/
def LruCache.evict (bound : Nat) (l : List (String × Int)) : List (String × Int) :=
  if bound = 0 then l else l.drop (l.length - bound)

def LruCache.set (c : LruCache) (k : String) (v : Int) : LruCache :=
  ⟨c.bound, LruCache.evict c.bound (removeEntry c.entries k ++ [(k, v)])⟩

/-- `Get` returns the value (or nothing) and marks the key most-recent. -/
def LruCache.get (c : LruCache) (k : String) : Option Int × LruCache :=
  match c.entries.find? (fun e => e.1 == k) with
  | none => (none, c)
  | some e => (some e.2, ⟨c.bound, removeEntry c.entries k ++ [(k, e.2)]⟩)

def LruCache.remove (c : LruCache) (k : String) : LruCache :=
  ⟨c.bound, removeEntry c.entries k⟩

def LruCache.removeOldest (c : LruCache) : LruCache :=
  ⟨c.bound, c.entries.drop 1⟩

def LruCache.containsKey (c : LruCache) (k : String) : Bool :=
  c.entries.any (fun e => e.1 == k)

/-- A sequence of `Set` operations, applied in order. -/
def LruCache.setAll (c : LruCache) (kvs : List (String × Int)) : LruCache :=
  kvs.foldl (fun c kv => c.set kv.1 kv.2) c

/-- Keys `"0"…"9"` with their values, in insertion order, as in the tests. -/
def lruKeys : List (String × Int) :=
  [("0", 0), ("1", 1), ("2", 2), ("3", 3), ("4", 4),
   ("5", 5), ("6", 6), ("7", 7), ("8", 8), ("9", 9)]

/-- Keys `"9","8",…,"1"` with their values, the re-`Set` order of the tests. -/
def lruKeysRev : List (String × Int) :=
  [("9", 9), ("8", 8), ("7", 7), ("6", 6), ("5", 5),
   ("4", 4), ("3", 3), ("2", 2), ("1", 1)]

/-- States reachable by the cache operations: keys are unique and a positive
bound is respected. -/
def LruCache.WellFormed (c : LruCache) : Prop :=
  (c.entries.map Prod.fst).Nodup ∧ (c.bound = 0 ∨ c.len ≤ c.bound)

/- ### File watcher -/

/-- fsnotify operation flags of an event (`fsnotify.Event.Op`). -/
structure WatchOp where
  write : Bool
  create : Bool
  rename : Bool
  remove : Bool
deriving DecidableEq

/-- An fsnotify event: a path name plus operation flags. -/
structure FsEvent where
  name : String
  op : WatchOp
deriving DecidableEq

/-- Model of Go `path.Clean` as used to key the deduplication timers
(file_watcher.go:123); the development relies only on `path.Clean` being a
function, so it is modelled as the identity on path strings. -/
def pathClean (s : String) : String := s

/-- Model of Go `path.Dir`: everything before the final slash, `"."` when the
path has no slash (the `Clean` normalisation of the result is irrelevant here
and is not modelled). -/
def pathDir (s : String) : String :=
  let pre := (s.data.reverse.dropWhile (fun c => c != '/')).reverse
  match pre with
  | [] => "."
  | ['/'] => "/"
  | l => String.mk l.dropLast

/-- Model of Go `strings.HasSuffix s suffix`. -/
def goHasSuffix (s suffix : String) : Bool :=
  suffix.data.isSuffixOf s.data

/-- The filesystem/OS facts the watcher consults: whether `fsnotify.NewWatcher`
succeeds, whether `watcher.Add` on a path succeeds, the `os.Lstat` result
(`none` = error/does not exist, `some b` where `b` says whether the path is a
symlink), and the result of `filepath.EvalSymlinks` (`none` = error). -/
structure FsEnv where
  newWatcherOk : Bool
  addWatch : String → Bool
  lstat : String → Option Bool
  evalSymlinks : String → Option String

/-- The state of a running `FileWatcher`: the currently resolved symlink
target (`f.target`), the paths added to the OS watcher, the pending
per-filename deduplication timers (cleaned event name ↦ absolute expiry
time), and the callback invocations so far (invocation time, argument). -/
structure RunState where
  target : String
  watched : List String
  timers : List (String × Nat)
  calls : List (Nat × String)
deriving DecidableEq

/-- `FileWatcher.updateWatcher` (file_watcher.go:93-105): re-resolve the
symlink chain of the original filename and add the result to the OS watcher;
on success the resolved path becomes the new target.  `none` models a non-nil
error return. -/
def updateWatcher (env : FsEnv) (filename : String) (s : RunState) : Option RunState :=
  match env.evalSymlinks filename with
  | none => none
  | some real =>
      if env.addWatch real then
        some { s with target := real, watched := s.watched ++ [real] }
      else none

def lookupTimer (timers : List (String × Nat)) (k : String) : Option Nat :=
  (timers.find? (fun e => e.1 == k)).map Prod.snd

/-- `time.Timer.Reset`: give the pending timer for `k` a new expiry. -/
def resetTimer (timers : List (String × Nat)) (k : String) (t : Nat) :
    List (String × Nat) :=
  timers.map (fun e => if e.1 == k then (e.1, t) else e)

/-- `triggerEvent` (file_watcher.go:116-143) at absolute time `t`: with
deduplication disabled (`D ≤ 0`) invoke the callback at once with the watch
filename; otherwise schedule a fresh one-shot timer of duration `D` for the
cleaned event name if none is pending, and reset the pending timer to a full
new duration otherwise. -/
def triggerEvent (D : Int) (filename : String) (t : Nat) (eventName : String)
    (s : RunState) : RunState :=
  if D ≤ 0 then { s with calls := s.calls ++ [(t, filename)] }
  else
    let key := pathClean eventName
    match lookupTimer s.timers key with
    | none => { s with timers := s.timers ++ [(key, t + D.toNat)] }
    | some _ => { s with timers := resetTimer s.timers key (t + D.toNat) }

/-- Fire every pending timer whose expiry is ≤ the current time: each
`time.AfterFunc` body invokes the callback with the watch filename and
removes its timer from the map. -/
def fireExpired (filename : String) (t : Nat) (s : RunState) : RunState :=
  { s with
    timers := s.timers.filter (fun e => decide (t < e.2)),
    calls := s.calls ++
      (s.timers.filter (fun e => decide (e.2 ≤ t))).map (fun e => (e.2, filename)) }

/-- The body of the `event := <-f.watcher.Events` case of `FileWatcher.run`
(file_watcher.go:147-180): ignore events with none of the write/create/
rename/remove flags; a remove fires (and re-resolves the watch) only when it
names the current target; a changed symlink that still matches the watch
filename switches the target and fires; otherwise fire when the event name
ends in the watch filename or in the current target. -/
def handleEvent (env : FsEnv) (D : Int) (filename : String) (t : Nat)
    (e : FsEvent) (s : RunState) : RunState :=
  if !(e.op.write || e.op.create || e.op.rename || e.op.remove) then s
  else if e.op.remove then
    if e.name != s.target then s
    else
      match updateWatcher env filename (triggerEvent D filename t e.name s) with
      | none => triggerEvent D filename t e.name s
      | some s2 => s2
  else
    match env.lstat e.name with
    | none =>
        if goHasSuffix e.name filename || goHasSuffix e.name s.target then
          triggerEvent D filename t e.name s
        else s
    | some isSymlink =>
        if isSymlink then
          match env.evalSymlinks e.name with
          | some tgt =>
              if tgt != s.target && goHasSuffix e.name filename then
                triggerEvent D filename t e.name { s with target := tgt }
              else s
          | none => s
        else
          if goHasSuffix e.name filename || goHasSuffix e.name s.target then
            triggerEvent D filename t e.name s
          else s

def initRunState (target : String) : RunState :=
  ⟨target, [], [], []⟩

/-- One iteration of the discrete-event semantics of `FileWatcher.run`: every
timer that has expired by the event's time fires first, then the event is
handled. -/
def stepEvent (env : FsEnv) (D : Int) (filename : String) (s : RunState)
    (te : Nat × FsEvent) : RunState :=
  handleEvent env D filename te.1 te.2 (fireExpired filename te.1 s)

/-- Fire every still-pending timer (silence after the last event). -/
def flushTimers (filename : String) (s : RunState) : RunState :=
  { s with
    timers := [],
    calls := s.calls ++ s.timers.map (fun e => (e.2, filename)) }

/-- Discrete-event run of the watcher loop over a time-ordered list of
filesystem events, followed by a period of silence long enough for every
pending deduplication timer to fire. -/
def runWatcher (env : FsEnv) (D : Int) (filename target : String)
    (events : List (Nat × FsEvent)) : RunState :=
  flushTimers filename (events.foldl (stepEvent env D filename) (initRunState target))

/-- The outcome of `NewFileWatcher`: the constructed watcher state (or `none`
together with `errored = true`), whether the underlying OS watcher was closed
before returning, and whether the callback was invoked during construction. -/
structure NewWatcherResult where
  watcher : Option RunState
  errored : Bool
  osWatcherClosed : Bool
  callbackInvoked : Bool
deriving DecidableEq

/-- `NewFileWatcher` (file_watcher.go:63-91): create the OS watcher, watch the
parent directory of `filename`, then resolve and watch the symlink target via
`updateWatcher`; on any failure after the OS watcher exists it is closed and
an error is returned.  The run loop — the only caller of the callback —
starts only on success. -/
def NewFileWatcher (env : FsEnv) (filename : String) : NewWatcherResult :=
  if !env.newWatcherOk then ⟨none, true, false, false⟩
  else if !env.addWatch (pathDir filename) then ⟨none, true, true, false⟩
  else
    match updateWatcher env filename ⟨"", [pathDir filename], [], []⟩ with
    | none => ⟨none, true, true, false⟩
    | some s => ⟨some s, false, false, false⟩

/- ### Static proxy tokens -/

/-- `ProxyToken`: the id together with the parsed RSA public key (keys are
opaque to this development and modelled as strings). -/
structure ProxyToken where
  id : String
  key : String
deriving DecidableEq

/-- The filesystem and key-parsing facts `tokensStatic.load` consults:
`os.ReadFile` and `jwt.ParseRSAPublicKeyFromPEM`, with `none` modelling a
non-nil error. -/
structure TokensEnv where
  readFile : String → Option String
  parseKey : String → Option String

/-- `tokensStatic`: the id→token map lives behind an `atomic.Value`; the
model records the full history of maps installed by `setTokenKeys`, oldest
first.  Readers observe the newest snapshot. -/
structure TokensStatic where
  history : List (List (String × ProxyToken))

/-- `tokensStatic.setTokenKeys`: one atomic store of a complete map. -/
def setTokenKeys (t : TokensStatic) (keys : List (String × ProxyToken)) :
    TokensStatic :=
  ⟨t.history ++ [keys]⟩

/-- `tokensStatic.getTokenKeys`: the newest installed snapshot. -/
def getTokenKeys (t : TokensStatic) : List (String × ProxyToken) :=
  t.history.getLast?.getD []

/-- Go map assignment `tokenKeys[id] = tok` on the assoc-list model. -/
def mapAssign (m : List (String × ProxyToken)) (id : String) (tok : ProxyToken) :
    List (String × ProxyToken) :=
  if m.any (fun e => e.1 == id) then
    m.map (fun e => if e.1 == id then (id, tok) else e)
  else m ++ [(id, tok)]

/-- Go map read `tokenKeys[id]` (nil when absent). -/
def mapLookup (m : List (String × ProxyToken)) (id : String) : Option ProxyToken :=
  (m.find? (fun e => e.1 == id)).map Prod.snd

/-- `tokensStatic.Get` (proxy_tokens_static.go:58-62): look the id up in the
current snapshot, without any lock; the error result is always nil. -/
def tokensGet (t : TokensStatic) (id : String) : Option ProxyToken × Option String :=
  (mapLookup (getTokenKeys t) id, none)

/-- The loop of `tokensStatic.load` over the `[tokens]` options: build a fresh
map starting from empty, failing on the first problem unless `ignoreErrors`.
The result depends only on the configuration and the environment, never on
the store. -/
def buildTokenKeys (env : TokensEnv) (options : List (String × String))
    (ignoreErrors : Bool) : Except String (List (String × ProxyToken)) :=
  options.foldlM (fun m kv =>
    if kv.2 == "" then
      if !ignoreErrors then .error ("no filename given for token " ++ kv.1)
      else .ok m
    else
      match env.readFile kv.2 with
      | none =>
          if !ignoreErrors then .error ("could not read public key from " ++ kv.2)
          else .ok m
      | some keyData =>
          match env.parseKey keyData with
          | none =>
              if !ignoreErrors then
                .error ("could not parse public key from " ++ kv.2)
              else .ok m
          | some key => .ok (mapAssign m kv.1 ⟨kv.1, key⟩)) []

/-- `tokensStatic.load` (proxy_tokens_static.go:64-118): `GetStringOptions`
may itself fail (`options` is then an error); otherwise the fresh map is
built and installed with a single `setTokenKeys` store.  Returns the store
afterwards and the returned error. -/
def tokensLoad (env : TokensEnv) (options : Except String (List (String × String)))
    (ignoreErrors : Bool) (t : TokensStatic) : TokensStatic × Option String :=
  match options with
  | .error e => (t, some e)
  | .ok opts =>
      match buildTokenKeys env opts ignoreErrors with
      | .error e => (t, some e)
      | .ok keys => (setTokenKeys t keys, none)

/-- `tokensStatic.Reload`: a load with `ignoreErrors` set; a failing load
leaves the store untouched. -/
def tokensReload (env : TokensEnv)
    (options : Except String (List (String × String))) (t : TokensStatic) :
    TokensStatic :=
  (tokensLoad env options true t).1

/-- `tokensStatic.Close`: install a fresh empty map. -/
def tokensClose (t : TokensStatic) : TokensStatic :=
  setTokenKeys t []

/- ### Federation AsyncMessage envelope -/

/-- A JSON value as produced by `encoding/json` for the envelope; the bodies
of the referenced message types (`ServerMessage`, `BackendServerRoomRequest`,
`MessageClientMessageData`, `Permission`) are opaque to this development. -/
inductive JsonValue where
  | str : String → JsonValue
  | time : Nat → JsonValue
  | null : JsonValue
  | arr : List JsonValue → JsonValue
  | obj : List (String × JsonValue) → JsonValue
  | opaqueVal : String → JsonValue

/-- `AsyncRoomMessage` with its JSON tags:
`type`; `sessionid,omitempty`; `clienttype,omitempty`. -/
structure AsyncRoomMessage where
  type : String
  sessionId : String
  clientType : String
deriving DecidableEq

/-- `SendOfferMessage` with its JSON tags:
`messageid,omitempty`; `sessionid`; `data`. -/
structure SendOfferMessage where
  messageId : String
  sessionId : String
  data : Option String
deriving DecidableEq

/-- `AsyncMessage` with its JSON tags; the five payload slots are pointers or
a slice in Go, all tagged `omitempty`. -/
structure AsyncMessage where
  sendTime : Nat
  type : String
  message : Option String
  room : Option String
  permissions : List String
  asyncRoom : Option AsyncRoomMessage
  sendOffer : Option SendOfferMessage
  id : String
deriving DecidableEq

/-- `encoding/json` marshalling of `AsyncRoomMessage`: fields in declaration
order; `omitempty` drops an empty string. -/
def marshalAsyncRoomMessage (m : AsyncRoomMessage) : List (String × JsonValue) :=
  [("type", JsonValue.str m.type)] ++
  (if m.sessionId == "" then [] else [("sessionid", JsonValue.str m.sessionId)]) ++
  (if m.clientType == "" then [] else [("clienttype", JsonValue.str m.clientType)])

/-- `encoding/json` marshalling of `SendOfferMessage`: `messageid` is dropped
when empty; `data` is always present (`null` for a nil pointer). -/
def marshalSendOfferMessage (m : SendOfferMessage) : List (String × JsonValue) :=
  (if m.messageId == "" then [] else [("messageid", JsonValue.str m.messageId)]) ++
  [("sessionid", JsonValue.str m.sessionId)] ++
  [("data", match m.data with | none => JsonValue.null | some d => JsonValue.opaqueVal d)]

/-- `encoding/json` marshalling of `AsyncMessage`: fields in declaration
order; every `omitempty` slot is dropped when nil/empty. -/
def marshalAsyncMessage (m : AsyncMessage) : List (String × JsonValue) :=
  [("sendtime", JsonValue.time m.sendTime), ("type", JsonValue.str m.type)] ++
  (match m.message with | none => [] | some x => [("message", JsonValue.opaqueVal x)]) ++
  (match m.room with | none => [] | some x => [("room", JsonValue.opaqueVal x)]) ++
  (if m.permissions.isEmpty then []
   else [("permissions", JsonValue.arr (m.permissions.map JsonValue.opaqueVal))]) ++
  (match m.asyncRoom with
   | none => []
   | some x => [("asyncroom", JsonValue.obj (marshalAsyncRoomMessage x))]) ++
  (match m.sendOffer with
   | none => []
   | some x => [("sendoffer", JsonValue.obj (marshalSendOfferMessage x))]) ++
  [("id", JsonValue.str m.id)]

/-- The number of populated payload slots of an envelope. -/
def payloadCount (m : AsyncMessage) : Nat :=
  (if m.message.isSome then 1 else 0) + (if m.room.isSome then 1 else 0) +
  (if !m.permissions.isEmpty then 1 else 0) + (if m.asyncRoom.isSome then 1 else 0) +
  (if m.sendOffer.isSome then 1 else 0)

/-- The five payload field names of the envelope. -/
def payloadKeys : List String :=
  ["message", "room", "permissions", "asyncroom", "sendoffer"]

/-- A benign filesystem environment: every watch succeeds, every path exists
and is a plain file, and symlink resolution is the identity. -/
def plainFsEnv : FsEnv :=
  ⟨true, fun _ => true, fun _ => some false, fun s => some s⟩

/-- A write event for a path. -/
def writeEvent (n : String) : FsEvent :=
  ⟨n, ⟨true, false, false, false⟩⟩

/-- Ten writes to the same file within 40 ms (at 0, 4, …, 36 ms). -/
def tenWrites : List (Nat × FsEvent) :=
  (List.range 10).map (fun i => (4 * i, writeEvent "conf"))

/-- A filesystem environment where no path can be watched or resolved. -/
def unwatchableFsEnv : FsEnv :=
  ⟨true, fun _ => false, fun _ => none, fun _ => none⟩

/-- A token environment where every file reads and parses successfully. -/
def readableTokensEnv : TokensEnv :=
  ⟨fun f => some ("pem:" ++ f), fun d => some ("key:" ++ d)⟩

/- ### Lemmas about the LRU cache -/

theorem evict_length_le (b : Nat) (hb : 0 < b) (l : List (String × Int)) :
    (LruCache.evict b l).length ≤ b := by
  unfold LruCache.evict
  rw [if_neg (Nat.pos_iff_ne_zero.mp hb), List.length_drop]
  omega

theorem set_len_le (c : LruCache) (k : String) (v : Int) (hb : 0 < c.bound) :
    (c.set k v).len ≤ c.bound := by
  simpa [LruCache.set, LruCache.len] using
    evict_length_le c.bound hb (removeEntry c.entries k ++ [(k, v)])

theorem setAll_len_le (b : Nat) (hb : 0 < b) :
    ∀ (ops : List (String × Int)) (c : LruCache), c.bound = b → c.len ≤ b →
      (c.setAll ops).len ≤ b := by
  intro ops
  induction ops with
  | nil => intro c _ hlen; simpa [LruCache.setAll] using hlen
  | cons kv rest ih =>
      intro c hbnd hlen
      have h1 : (c.set kv.1 kv.2).bound = b := by
        simp [LruCache.set, hbnd]
      have h2 : (c.set kv.1 kv.2).len ≤ b := by
        have h := set_len_le c kv.1 kv.2 (by rw [hbnd]; exact hb)
        rwa [hbnd] at h
      have h3 := ih (c.set kv.1 kv.2) h1 h2
      simpa [LruCache.setAll, List.foldl_cons] using h3

theorem removeEntry_no_key (l : List (String × Int)) (k : String) :
    ∀ e ∈ removeEntry l k, (e.1 == k) = false := by
  intro e he
  have h := List.of_mem_filter he
  simpa [bne] using h

theorem find_eq_last (pre : List (String × Int)) (k : String) (v : Int)
    (h : ∀ e ∈ pre, (e.1 == k) = false) :
    (pre ++ [(k, v)]).find? (fun e => e.1 == k) = some (k, v) := by
  induction pre with
  | nil => simp [List.find?]
  | cons a t ih =>
      have ha := h a (by simp)
      rw [List.cons_append, List.find?_cons_of_neg _ (by simp [ha])]
      exact ih (fun e he => h e (List.mem_cons_of_mem _ he))

theorem dropAppendOfLe {α : Type} (l₁ l₂ : List α) (n : Nat) (h : n ≤ l₁.length) :
    (l₁ ++ l₂).drop n = l₁.drop n ++ l₂ := by
  induction l₁ generalizing n with
  | nil =>
      have : n = 0 := by simpa using h
      simp [this]
  | cons a t ih =>
      cases n with
      | zero => simp
      | succ m =>
          simp only [List.cons_append, List.drop_succ_cons]
          exact ih m (by simpa using h)

theorem set_entries_split (c : LruCache) (k : String) (v : Int) :
    ∃ pre, (c.set k v).entries = pre ++ [(k, v)] ∧
      ∀ e ∈ pre, (e.1 == k) = false := by
  by_cases hb : c.bound = 0
  · refine ⟨removeEntry c.entries k, ?_, removeEntry_no_key c.entries k⟩
    simp [LruCache.set, LruCache.evict, hb]
  · set l := removeEntry c.entries k with hl
    set n := (l ++ [(k, v)]).length - c.bound with hn
    have hle : n ≤ l.length := by
      have : (l ++ [(k, v)]).length = l.length + 1 := by simp
      omega
    refine ⟨l.drop n, ?_, ?_⟩
    · have : (c.set k v).entries = (l ++ [(k, v)]).drop n := by
        simp [LruCache.set, LruCache.evict, hb, hl, hn]
      rw [this, dropAppendOfLe l [(k, v)] n hle]
    · intro e he
      exact removeEntry_no_key c.entries k e (hl ▸ List.mem_of_mem_drop he)

theorem get_after_set (c : LruCache) (k : String) (v : Int) :
    ((c.set k v).get k).1 = some v := by
  obtain ⟨pre, hsplit, hpre⟩ := set_entries_split c k v
  have hfind : (c.set k v).entries.find? (fun e => e.1 == k) = some (k, v) := by
    rw [hsplit]; exact find_eq_last pre k v hpre
  simp [LruCache.get, hfind]

theorem set_entries_getLast (c : LruCache) (k : String) (v : Int) :
    (c.set k v).entries.getLast? = some (k, v) := by
  obtain ⟨pre, hsplit, _⟩ := set_entries_split c k v
  rw [hsplit]
  simp [List.getLast?_concat]

theorem removeEntry_length_of_mem (l : List (String × Int)) (k : String)
    (hnd : (l.map Prod.fst).Nodup) (hk : l.any (fun e => e.1 == k) = true) :
    (removeEntry l k).length + 1 = l.length := by
  induction l with
  | nil => simp at hk
  | cons a t ih =>
      have hnd' : (t.map Prod.fst).Nodup := (List.nodup_cons.mp (by simpa using hnd)).2
      by_cases hak : a.1 = k
      · have hnotin : a.1 ∉ t.map Prod.fst := (List.nodup_cons.mp (by simpa using hnd)).1
        have hnone : ∀ e ∈ t, (e.1 != k) = true := by
          intro e he
          have hne : e.1 ≠ k := by
            intro hek
            exact hnotin (by rw [hak, ← hek]; exact List.mem_map_of_mem Prod.fst he)
          simpa [bne] using hne
        have hself : removeEntry t k = t := List.filter_eq_self.mpr hnone
        have hdrop : removeEntry (a :: t) k = removeEntry t k := by
          simp [removeEntry, List.filter_cons, hak]
        rw [hdrop, hself]
        simp
      · have hk' : t.any (fun e => e.1 == k) = true := by
          have hfalse : (a.1 == k) = false := beq_eq_false_iff_ne.mpr hak
          simpa [List.any_cons, hfalse] using hk
        have hkeep : removeEntry (a :: t) k = a :: removeEntry t k := by
          simp [removeEntry, List.filter_cons, bne, hak]
        rw [hkeep]
        have := ih hnd' hk'
        simp only [List.length_cons]
        omega

theorem set_len_of_contains (c : LruCache) (k : String) (v : Int)
    (hwf : c.WellFormed) (hk : c.containsKey k = true) :
    (c.set k v).len = c.len := by
  have hrem := removeEntry_length_of_mem c.entries k hwf.1 hk
  by_cases hb : c.bound = 0
  · simp [LruCache.set, LruCache.len, LruCache.evict, hb, List.length_append]
    omega
  · have hlenle : c.entries.length ≤ c.bound := by
      rcases hwf.2 with h | h
      · exact absurd h hb
      · exact h
    simp [LruCache.set, LruCache.len, LruCache.evict, hb, List.length_drop,
      List.length_append]
    omega

/- ### Claims about the LRU cache -/

/-- C1: with any positive bound `b`, every sequence of `Set` operations on
`NewLruCache b` leaves `Len() ≤ b` (each `Set` that would exceed the bound
first evicts the oldest entries); concretely, with bound 2, inserting keys
`"0"…"9"` leaves `Len() = 2` and only `"8"` and `"9"` retrievable — `Get` on
every other key returns nothing. -/
theorem C1_lru_bound_invariant (b : Nat) (hb : 0 < b)
    (ops : List (String × Int)) :
    ((NewLruCache b).setAll ops).len ≤ b ∧
      ((NewLruCache 2).setAll lruKeys).len = 2 ∧
      (((NewLruCache 2).setAll lruKeys).get "8").1 = some 8 ∧
      (((NewLruCache 2).setAll lruKeys).get "9").1 = some 9 ∧
      (["0", "1", "2", "3", "4", "5", "6", "7"].all
        (fun k => (((NewLruCache 2).setAll lruKeys).get k).1 == none)) = true := by
  refine ⟨setAll_len_le b hb ops (NewLruCache b) rfl (Nat.zero_le b), ?_, ?_, ?_, ?_⟩
  · decide
  · decide
  · decide
  · decide

/-- Witness for C1 at bound 2 with the test's ten keys. -/
theorem C1_lru_bound_invariant_witness :
    ((NewLruCache 2).setAll lruKeys).len ≤ 2 :=
  (C1_lru_bound_invariant 2 (by decide) lruKeys).1

/-- C2: on an unbounded cache (bound 0), inserting keys `"0"…"9"` gives
`Len() = 10` with `"0"` oldest, so `RemoveOldest()` removes `"0"`;
re-`Set`-ting `"9","8",…,"1"` in that order makes `"9"` the oldest, so the
next `RemoveOldest()` removes `"9"`; after `Remove("5")`, `Len() = 7` and
`Get("5")` returns nothing — recency is determined solely by insertion or
most-recent `Set`/`Get`, and `Remove` does not promote neighbors. -/
theorem C2_lru_unbounded_recency :
    ((NewLruCache 0).setAll lruKeys).len = 10 ∧
      ((NewLruCache 0).setAll lruKeys).entries.head? = some ("0", 0) ∧
      (((NewLruCache 0).setAll lruKeys).removeOldest).len = 9 ∧
      ((((NewLruCache 0).setAll lruKeys).removeOldest).get "0").1 = none ∧
      ((((NewLruCache 0).setAll lruKeys).removeOldest).setAll lruKeysRev).len = 9 ∧
      ((((NewLruCache 0).setAll lruKeys).removeOldest).setAll
        lruKeysRev).entries.head? = some ("9", 9) ∧
      (((((NewLruCache 0).setAll lruKeys).removeOldest).setAll
        lruKeysRev).removeOldest).len = 8 ∧
      ((((((NewLruCache 0).setAll lruKeys).removeOldest).setAll
        lruKeysRev).removeOldest).get "9").1 = none ∧
      ((((((NewLruCache 0).setAll lruKeys).removeOldest).setAll
        lruKeysRev).removeOldest).remove "5").len = 7 ∧
      (((((((NewLruCache 0).setAll lruKeys).removeOldest).setAll
        lruKeysRev).removeOldest).remove "5").get "5").1 = none := by
  decide

/-- C3: `Set(k,v)` then `Get(k)` returns `v`; `Set(k,v); Set(k,v'); Get(k)`
returns `v'`; and a `Set` on a key already present updates its value, moves
it to the most-recent position, and leaves `Len()` unchanged. -/
theorem C3_lru_set_get (c : LruCache) (k : String) (v v' : Int) :
    ((c.set k v).get k).1 = some v ∧
      (((c.set k v).set k v').get k).1 = some v' ∧
      (c.set k v).entries.getLast? = some (k, v) ∧
      (c.WellFormed → c.containsKey k = true → (c.set k v).len = c.len) :=
  ⟨get_after_set c k v, get_after_set (c.set k v) k v',
   set_entries_getLast c k v,
   fun hwf hk => set_len_of_contains c k v hwf hk⟩

/-- Witness for C3 on a concrete one-entry cache. -/
theorem C3_lru_set_get_witness :
    (((NewLruCache 0).set "a" 1).get "a").1 = some 1 ∧
      (((NewLruCache 0).set "a" 1).set "a" 2).len =
        ((NewLruCache 0).set "a" 1).len :=
  ⟨(C3_lru_set_get (NewLruCache 0) "a" 1 2).1,
   (C3_lru_set_get ((NewLruCache 0).set "a" 1) "a" 2 3).2.2.2
     (by constructor <;> decide) (by decide)⟩

/- ### Lemmas about the file watcher -/

theorem calls_triggerEvent (D : Int) (filename : String) (t : Nat)
    (eventName : String) (s : RunState) :
    ∀ c ∈ (triggerEvent D filename t eventName s).calls,
      c ∈ s.calls ∨ c.2 = filename := by
  intro c hc
  by_cases hD : D ≤ 0
  · simp only [triggerEvent, if_pos hD] at hc
    simp at hc
    rcases hc with hc | hc
    · exact Or.inl hc
    · right; rw [hc]
  · simp only [triggerEvent, if_neg hD] at hc
    cases h : lookupTimer s.timers (pathClean eventName) <;> rw [h] at hc <;>
      exact Or.inl hc

theorem calls_fireExpired (filename : String) (t : Nat) (s : RunState) :
    ∀ c ∈ (fireExpired filename t s).calls, c ∈ s.calls ∨ c.2 = filename := by
  intro c hc
  rcases List.mem_append.mp hc with hc | hc
  · exact Or.inl hc
  · right
    obtain ⟨e, -, he⟩ := List.mem_map.mp hc
    rw [← he]

theorem calls_updateWatcher (env : FsEnv) (filename : String) (s s' : RunState)
    (h : updateWatcher env filename s = some s') : s'.calls = s.calls := by
  cases henv : env.evalSymlinks filename with
  | none =>
      simp only [updateWatcher, henv] at h
      exact Option.noConfusion h
  | some real =>
      simp only [updateWatcher, henv] at h
      split at h
      · have h' := Option.some.inj h
        rw [← h']
      · exact Option.noConfusion h

theorem calls_handleEvent (env : FsEnv) (D : Int) (filename : String) (t : Nat)
    (e : FsEvent) (s : RunState) :
    ∀ c ∈ (handleEvent env D filename t e s).calls,
      c ∈ s.calls ∨ c.2 = filename := by
  intro c hc
  unfold handleEvent at hc
  split at hc
  · exact Or.inl hc
  · split at hc
    · split at hc
      · exact Or.inl hc
      · cases hup : updateWatcher env filename (triggerEvent D filename t e.name s) with
        | none =>
            rw [hup] at hc
            exact calls_triggerEvent D filename t e.name s c hc
        | some s2 =>
            rw [hup] at hc
            have hc2 : c ∈ s2.calls := hc
            rw [calls_updateWatcher env filename _ s2 hup] at hc2
            exact calls_triggerEvent D filename t e.name s c hc2
    · cases hst : env.lstat e.name with
      | none =>
          rw [hst] at hc
          have hc2 : c ∈ (if (goHasSuffix e.name filename ||
              goHasSuffix e.name s.target) = true
              then triggerEvent D filename t e.name s else s).calls := hc
          split at hc2
          · exact calls_triggerEvent D filename t e.name s c hc2
          · exact Or.inl hc2
      | some isSym =>
          rw [hst] at hc
          by_cases hsym : isSym = true
          · rw [hsym] at hc
            have hc2 : c ∈ (match env.evalSymlinks e.name with
                | some tgt =>
                    if (tgt != s.target && goHasSuffix e.name filename) = true then
                      triggerEvent D filename t e.name { s with target := tgt }
                    else s
                | none => s).calls := hc
            cases hev : env.evalSymlinks e.name with
            | none =>
                rw [hev] at hc2
                exact Or.inl hc2
            | some tgt =>
                rw [hev] at hc2
                have hc3 : c ∈ (if (tgt != s.target &&
                    goHasSuffix e.name filename) = true then
                    triggerEvent D filename t e.name { s with target := tgt }
                    else s).calls := hc2
                split at hc3
                · rcases calls_triggerEvent D filename t e.name
                      { s with target := tgt } c hc3 with h | h
                  · exact Or.inl h
                  · exact Or.inr h
                · exact Or.inl hc3
          · have hsym' : isSym = false := by simpa using hsym
            rw [hsym'] at hc
            have hc2 : c ∈ (if (goHasSuffix e.name filename ||
                goHasSuffix e.name s.target) = true
                then triggerEvent D filename t e.name s else s).calls := hc
            split at hc2
            · exact calls_triggerEvent D filename t e.name s c hc2
            · exact Or.inl hc2

theorem calls_stepEvent (env : FsEnv) (D : Int) (filename : String)
    (s : RunState) (te : Nat × FsEvent) :
    ∀ c ∈ (stepEvent env D filename s te).calls, c ∈ s.calls ∨ c.2 = filename := by
  intro c hc
  rcases calls_handleEvent env D filename te.1 te.2 (fireExpired filename te.1 s) c hc
      with h | h
  · exact calls_fireExpired filename te.1 s c h
  · exact Or.inr h

theorem calls_foldl (env : FsEnv) (D : Int) (filename : String) :
    ∀ (events : List (Nat × FsEvent)) (s : RunState),
      (∀ c ∈ s.calls, c.2 = filename) →
      ∀ c ∈ (events.foldl (stepEvent env D filename) s).calls, c.2 = filename := by
  intro events
  induction events with
  | nil => intro s hs; simpa using hs
  | cons te rest ih =>
      intro s hs
      rw [List.foldl_cons]
      refine ih (stepEvent env D filename s te) ?_
      intro c hc
      rcases calls_stepEvent env D filename s te c hc with h | h
      · exact hs c h
      · exact h

theorem calls_flushTimers (filename : String) (s : RunState)
    (hs : ∀ c ∈ s.calls, c.2 = filename) :
    ∀ c ∈ (flushTimers filename s).calls, c.2 = filename := by
  intro c hc
  rcases List.mem_append.mp hc with hc | hc
  · exact hs c hc
  · obtain ⟨e, -, he⟩ := List.mem_map.mp hc
    rw [← he]

/- ### Claims about the file watcher -/

/-- C4: with deduplication duration `D > 0`, the first relevant event for an
observed filename schedules a one-shot timer of duration `D` instead of
invoking the callback, every further event for the same filename before
expiry resets the timer to a full new duration instead of invoking the
callback, and an expired timer invokes the callback, while `D ≤ 0` disables
deduplication and invokes the callback at once; hence ten writes to the same
file within 40 ms produce exactly one callback invocation, and a single
write followed by silence produces exactly one invocation at time `D` after
the write. -/
theorem C4_watcher_dedup (D : Int) (hD : 0 < D) (filename : String) (t : Nat)
    (eventName : String) (s : RunState) :
    (lookupTimer s.timers (pathClean eventName) = none →
        triggerEvent D filename t eventName s =
          { s with timers := s.timers ++ [(pathClean eventName, t + D.toNat)] }) ∧
      (∀ t0, lookupTimer s.timers (pathClean eventName) = some t0 →
        triggerEvent D filename t eventName s =
          { s with
            timers := resetTimer s.timers (pathClean eventName) (t + D.toNat) }) ∧
      (∀ key exp, s.timers = [(key, exp)] → exp ≤ t →
        fireExpired filename t s =
          { s with timers := [], calls := s.calls ++ [(exp, filename)] }) ∧
      (∀ D0 : Int, D0 ≤ 0 →
        triggerEvent D0 filename t eventName s =
          { s with calls := s.calls ++ [(t, filename)] }) ∧
      (runWatcher plainFsEnv 100 "conf" "conf" tenWrites).calls = [(136, "conf")] ∧
      (runWatcher plainFsEnv 100 "conf" "conf" [(0, writeEvent "conf")]).calls =
        [(100, "conf")] := by
  have hD' : ¬ D ≤ 0 := not_le.mpr hD
  refine ⟨?_, ?_, ?_, ?_, by decide, by decide⟩
  · intro h
    simp [triggerEvent, hD', h]
  · intro t0 h
    simp [triggerEvent, hD', h]
  · intro key exp hts hle
    simp [fireExpired, hts, hle]
  · intro D0 h0
    simp [triggerEvent, h0]

/-- Witness for C4: the first write to a freshly watched file schedules a
100 ms timer and invokes no callback. -/
theorem C4_watcher_dedup_witness :
    triggerEvent 100 "conf" 0 "conf" (initRunState "conf") =
      ⟨"conf", [], [("conf", 100)], []⟩ := by
  have h :=
    (C4_watcher_dedup 100 (by decide) "conf" 0 "conf" (initRunState "conf")).1
      (by decide)
  rw [h]
  decide

/-- C5: every callback invocation in any run of the watcher receives exactly
the original filename argument passed at construction — never the resolved
symlink target — regardless of which observed file produced the triggering
event. -/
theorem C5_callback_original_filename (env : FsEnv) (D : Int)
    (filename target : String) (events : List (Nat × FsEvent)) :
    ∀ c ∈ (runWatcher env D filename target events).calls, c.2 = filename := by
  unfold runWatcher
  refine calls_flushTimers filename _ ?_
  exact calls_foldl env D filename events (initRunState target) (by simp [initRunState])

/-- Witness for C5: the single callback of a one-write run carries the watch
filename. -/
theorem C5_callback_original_filename_witness :
    ((136 : Nat), "conf").2 = "conf" :=
  C5_callback_original_filename plainFsEnv 100 "conf" "conf" tenWrites
    (136, "conf") (by decide)

/-- C6: the run loop never fires the callback — or changes any state — for an
event none of whose operations is write, create, rename or remove; a remove
event fires only when its name equals the currently resolved target
(otherwise it is ignored entirely); and after a remove of the current target
the watcher re-resolves the symlink chain of the original filename and
watches the new target. -/
theorem C6_run_loop_filter (env : FsEnv) (D : Int) (filename : String)
    (t : Nat) (e : FsEvent) (s : RunState) :
    ((e.op.write || e.op.create || e.op.rename || e.op.remove) = false →
        handleEvent env D filename t e s = s) ∧
      (e.op.remove = true → e.name ≠ s.target →
        handleEvent env D filename t e s = s) ∧
      (∀ rt, e.op.remove = true → e.name = s.target →
        env.evalSymlinks filename = some rt → env.addWatch rt = true →
        (handleEvent env D filename t e s).target = rt ∧
          rt ∈ (handleEvent env D filename t e s).watched) := by
  refine ⟨?_, ?_, ?_⟩
  · intro h
    simp [handleEvent, h]
  · intro hrem hne
    simp [handleEvent, hrem, bne_iff_ne.mpr hne]
  · intro rt hrem hname henv haw
    simp [handleEvent, hrem, hname, updateWatcher, henv, haw]

/-- Witness for C6: a chmod-only event and a remove of a different path leave
the state unchanged; a remove of the current target re-resolves the watch. -/
theorem C6_run_loop_filter_witness :
    handleEvent plainFsEnv 100 "conf" 0 ⟨"x", ⟨false, false, false, false⟩⟩
        (initRunState "tgt") = initRunState "tgt" ∧
      handleEvent plainFsEnv 100 "conf" 0 ⟨"x", ⟨false, false, false, true⟩⟩
        (initRunState "tgt") = initRunState "tgt" ∧
      (handleEvent plainFsEnv 100 "conf" 0 ⟨"tgt", ⟨false, false, false, true⟩⟩
        (initRunState "tgt")).target = "conf" :=
  ⟨(C6_run_loop_filter plainFsEnv 100 "conf" 0 _ _).1 (by decide),
   (C6_run_loop_filter plainFsEnv 100 "conf" 0 _ _).2.1 rfl (by decide),
   ((C6_run_loop_filter plainFsEnv 100 "conf" 0 _ _).2.2 "conf" rfl rfl rfl
     rfl).1⟩

/-- C10: `NewFileWatcher` returns no watcher together with an error whenever
the parent directory of the filename cannot be watched or the symlink chain
cannot be resolved to an existing watchable target; in every such error case
the underlying OS watcher is closed before returning, and the callback is
never invoked. -/
theorem C10_new_watcher_errors (env : FsEnv) (filename : String)
    (hok : env.newWatcherOk = true)
    (hfail : env.addWatch (pathDir filename) = false ∨
      env.evalSymlinks filename = none ∨
      ∀ rt, env.evalSymlinks filename = some rt → env.addWatch rt = false) :
    (NewFileWatcher env filename).watcher = none ∧
      (NewFileWatcher env filename).errored = true ∧
      (NewFileWatcher env filename).osWatcherClosed = true ∧
      (NewFileWatcher env filename).callbackInvoked = false := by
  by_cases hdir : env.addWatch (pathDir filename) = true
  · rcases hfail with h | h | h
    · rw [h] at hdir
      exact absurd hdir (by simp)
    · simp [NewFileWatcher, hok, hdir, updateWatcher, h]
    · cases hev : env.evalSymlinks filename with
      | none => simp [NewFileWatcher, hok, hdir, updateWatcher, hev]
      | some rt => simp [NewFileWatcher, hok, hdir, updateWatcher, hev, h rt hev]
  · simp only [Bool.not_eq_true] at hdir
    simp [NewFileWatcher, hok, hdir]

/-- Witness for C10 on an environment where nothing can be watched. -/
theorem C10_new_watcher_errors_witness :
    (NewFileWatcher unwatchableFsEnv "conf").watcher = none ∧
      (NewFileWatcher unwatchableFsEnv "conf").errored = true ∧
      (NewFileWatcher unwatchableFsEnv "conf").osWatcherClosed = true ∧
      (NewFileWatcher unwatchableFsEnv "conf").callbackInvoked = false :=
  C10_new_watcher_errors unwatchableFsEnv "conf" rfl (Or.inl rfl)

/- ### Claims about the static proxy tokens -/

/-- C8: every successful load builds a completely fresh id→token map — a
function of the configuration and environment alone — and installs it with
exactly one atomic store, appending one snapshot to the store history and
mutating no snapshot already visible to readers; `Get` reads the newest
snapshot without any lock, so the key set a reader observes is the complete
result of exactly one load; `Close` likewise installs one fresh empty
snapshot. -/
theorem C8_tokens_snapshot (env : TokensEnv) (o : List (String × String))
    (ig : Bool) (t : TokensStatic) :
    (∀ m, buildTokenKeys env o ig = .ok m →
        tokensLoad env (.ok o) ig t = (⟨t.history ++ [m]⟩, none) ∧
          ∀ id, tokensGet (tokensLoad env (.ok o) ig t).1 id =
            (mapLookup m id, none)) ∧
      (∀ e, buildTokenKeys env o ig = .error e →
        tokensLoad env (.ok o) ig t = (t, some e)) ∧
      tokensClose t = ⟨t.history ++ [[]]⟩ := by
  refine ⟨?_, ?_, rfl⟩
  · intro m hb
    have hload : tokensLoad env (.ok o) ig t = (⟨t.history ++ [m]⟩, none) := by
      simp [tokensLoad, hb, setTokenKeys]
    refine ⟨hload, ?_⟩
    intro id
    rw [hload]
    simp [tokensGet, getTokenKeys, List.getLast?_concat]
  · intro e hb
    simp [tokensLoad, hb]

/-- Witness for C8 on a one-entry configuration over an all-readable
environment. -/
theorem C8_tokens_snapshot_witness :
    tokensLoad readableTokensEnv (.ok [("a", "fa")]) false ⟨[]⟩ =
        (⟨[[("a", ⟨"a", "key:pem:fa"⟩)]]⟩, none) ∧
      tokensGet (tokensLoad readableTokensEnv (.ok [("a", "fa")]) false ⟨[]⟩).1 "a" =
        (some ⟨"a", "key:pem:fa"⟩, none) := by
  have h :=
    (C8_tokens_snapshot readableTokensEnv [("a", "fa")] false ⟨[]⟩).1
      [("a", ⟨"a", "key:pem:fa"⟩)] rfl
  exact ⟨h.1, h.2 "a"⟩

/-- C9: `tokensStatic.Get` always returns a nil error; when the id is absent
from the loaded key set it returns a nil token together with the nil error,
so an unknown token id is signalled by the nil result, never by an error
value. -/
theorem C9_tokens_get_nil_error (t : TokensStatic) (id : String) :
    (tokensGet t id).2 = none ∧
      (mapLookup (getTokenKeys t) id = none → (tokensGet t id).1 = none) :=
  ⟨rfl, fun h => h⟩

/-- Witness for C9 on an id absent from an empty store. -/
theorem C9_tokens_get_nil_error_witness :
    (tokensGet ⟨[]⟩ "x").2 = none ∧ (tokensGet ⟨[]⟩ "x").1 = none :=
  ⟨(C9_tokens_get_nil_error ⟨[]⟩ "x").1,
   (C9_tokens_get_nil_error ⟨[]⟩ "x").2 rfl⟩

/- ### Claims about the AsyncMessage envelope -/

theorem keys_marshalAsyncMessage (m : AsyncMessage) :
    (marshalAsyncMessage m).map Prod.fst =
      ["sendtime", "type"] ++
      (if m.message.isSome then ["message"] else []) ++
      (if m.room.isSome then ["room"] else []) ++
      (if !m.permissions.isEmpty then ["permissions"] else []) ++
      (if m.asyncRoom.isSome then ["asyncroom"] else []) ++
      (if m.sendOffer.isSome then ["sendoffer"] else []) ++ ["id"] := by
  cases hm : m.message <;> cases hr : m.room <;> cases ha : m.asyncRoom <;>
    cases hs : m.sendOffer <;> by_cases hp : m.permissions.isEmpty <;>
      simp [marshalAsyncMessage, hm, hr, ha, hs, hp]

/-- C7 counterexample: the `sendoffer` payload does not serialise to JSON
with camel-case keys `messageId` and `sessionId`; the Go struct tags are the
lowercase `messageid` and `sessionid`, as the marshalling of the concrete
populated `SendOfferMessage {"m1", "s1", "d1"}` shows. -/
theorem C7_sendoffer_keys_counterexample :
    (marshalSendOfferMessage ⟨"m1", "s1", some "d1"⟩).map Prod.fst =
        ["messageid", "sessionid", "data"] ∧
      "messageId" ∉ (marshalSendOfferMessage ⟨"m1", "s1", some "d1"⟩).map Prod.fst ∧
      "sessionId" ∉ (marshalSendOfferMessage ⟨"m1", "s1", some "d1"⟩).map Prod.fst := by
  refine ⟨rfl, ?_, ?_⟩ <;> decide

/-- C7 (amended): the envelope serialises to JSON with `sendtime`, `type` and
`id` always present; each of the five payload slots appears — under its
lowercase Go JSON tag — exactly when it is populated, empty slots being
omitted, so an envelope with at most one populated slot serialises with at
most one payload field; the `asyncroom` payload carries `type`, plus
`sessionid` and `clienttype` when non-empty; the `sendoffer` payload carries
`sessionid` and `data` always and `messageid` when non-empty — the keys
being lowercase `messageid`/`sessionid`, not `messageId`/`sessionId`. -/
theorem C7_envelope_fields (m : AsyncMessage) (a : AsyncRoomMessage)
    (so : SendOfferMessage) :
    "sendtime" ∈ (marshalAsyncMessage m).map Prod.fst ∧
      "type" ∈ (marshalAsyncMessage m).map Prod.fst ∧
      "id" ∈ (marshalAsyncMessage m).map Prod.fst ∧
      ("message" ∈ (marshalAsyncMessage m).map Prod.fst ↔
        m.message.isSome = true) ∧
      ("room" ∈ (marshalAsyncMessage m).map Prod.fst ↔ m.room.isSome = true) ∧
      ("permissions" ∈ (marshalAsyncMessage m).map Prod.fst ↔
        m.permissions.isEmpty = false) ∧
      ("asyncroom" ∈ (marshalAsyncMessage m).map Prod.fst ↔
        m.asyncRoom.isSome = true) ∧
      ("sendoffer" ∈ (marshalAsyncMessage m).map Prod.fst ↔
        m.sendOffer.isSome = true) ∧
      (payloadCount m ≤ 1 →
        (((marshalAsyncMessage m).map Prod.fst).filter
          (fun k => payloadKeys.contains k)).length ≤ 1) ∧
      "type" ∈ (marshalAsyncRoomMessage a).map Prod.fst ∧
      (marshalAsyncRoomMessage a).map Prod.fst ⊆
        ["type", "sessionid", "clienttype"] ∧
      (a.sessionId ≠ "" → "sessionid" ∈ (marshalAsyncRoomMessage a).map Prod.fst) ∧
      (a.clientType ≠ "" →
        "clienttype" ∈ (marshalAsyncRoomMessage a).map Prod.fst) ∧
      "sessionid" ∈ (marshalSendOfferMessage so).map Prod.fst ∧
      "data" ∈ (marshalSendOfferMessage so).map Prod.fst ∧
      (so.messageId ≠ "" → "messageid" ∈ (marshalSendOfferMessage so).map Prod.fst) ∧
      (marshalSendOfferMessage so).map Prod.fst ⊆
        ["messageid", "sessionid", "data"] := by
  refine ⟨?_, ?_, ?_, ?_, ?_, ?_, ?_, ?_, ?_, ?_, ?_, ?_, ?_, ?_, ?_, ?_, ?_⟩
  · rw [keys_marshalAsyncMessage]; simp
  · rw [keys_marshalAsyncMessage]; simp
  · rw [keys_marshalAsyncMessage]; simp
  · rw [keys_marshalAsyncMessage]
    cases hm : m.message <;> simp [List.mem_append]
  · rw [keys_marshalAsyncMessage]
    cases hr : m.room <;> simp [List.mem_append]
  · rw [keys_marshalAsyncMessage]
    by_cases hp : m.permissions.isEmpty <;> simp [hp, List.mem_append]
  · rw [keys_marshalAsyncMessage]
    cases ha : m.asyncRoom <;> simp [List.mem_append]
  · rw [keys_marshalAsyncMessage]
    cases hs : m.sendOffer <;> simp [List.mem_append]
  · intro h
    cases hm : m.message <;> cases hr : m.room <;> cases ha : m.asyncRoom <;>
      cases hs : m.sendOffer <;> by_cases hp : m.permissions.isEmpty <;>
        rw [payloadCount, hm, hr, ha, hs] at h <;>
        rw [keys_marshalAsyncMessage, hm, hr, ha, hs] <;>
        simp [hp, payloadKeys] at h ⊢
  · cases hsi : decide (a.sessionId = "") <;> cases hct : decide (a.clientType = "") <;>
      simp [marshalAsyncRoomMessage]
  · intro k hk
    by_cases hsi : a.sessionId = "" <;> by_cases hct : a.clientType = "" <;>
      simp [marshalAsyncRoomMessage, hsi, hct] at hk <;> simp [hk] <;>
        rcases hk with h | h <;> simp [h]
  · intro h
    simp [marshalAsyncRoomMessage, h]
  · intro h
    by_cases hsi : a.sessionId = "" <;> simp [marshalAsyncRoomMessage, hsi, h]
  · by_cases hmi : so.messageId = "" <;> simp [marshalSendOfferMessage, hmi]
  · by_cases hmi : so.messageId = "" <;> simp [marshalSendOfferMessage, hmi]
  · intro h
    simp [marshalSendOfferMessage, h]
  · intro k hk
    by_cases hmi : so.messageId = "" <;>
      simp [marshalSendOfferMessage, hmi] at hk
    · rcases hk with h | h <;> simp [h]
    · rcases hk with h | h | h <;> simp [h]

/-- Witness for C7 on a concrete envelope with a single populated
`sendoffer` slot. -/
theorem C7_envelope_fields_witness :
    ("sendoffer" ∈ (marshalAsyncMessage
        ⟨7, "sendoffer", none, none, [], none, some ⟨"m1", "s1", some "d1"⟩,
          "id1"⟩).map Prod.fst ↔
      (some (⟨"m1", "s1", some "d1"⟩ : SendOfferMessage)).isSome = true) ∧
      (((marshalAsyncMessage
        ⟨7, "sendoffer", none, none, [], none, some ⟨"m1", "s1", some "d1"⟩,
          "id1"⟩).map Prod.fst).filter
        (fun k => payloadKeys.contains k)).length ≤ 1 ∧
      "messageid" ∈ (marshalSendOfferMessage ⟨"m1", "s1", some "d1"⟩).map Prod.fst := by
  have h := C7_envelope_fields
    ⟨7, "sendoffer", none, none, [], none, some ⟨"m1", "s1", some "d1"⟩, "id1"⟩
    ⟨"join", "s2", "c2"⟩ ⟨"m1", "s1", some "d1"⟩
  exact ⟨h.2.2.2.2.2.2.2.1, h.2.2.2.2.2.2.2.2.1 (by decide),
    h.2.2.2.2.2.2.2.2.2.2.2.2.2.2.2.1 (by decide)⟩
